import Mathlib

/-!
Smallshell: the token expander, the command parser, the foreground-only toggle and
the child side of the launcher of `src/main.c`.

C strings are modelled by the list of characters that precede the terminating
NUL; reading `s[i]` gives `some c` for a character and `none` for the
terminator.  A pointer that may be `NULL` is an `Option`.  Code that can fault
(a read through `NULL`, a store outside an allocation or an array) returns in
`Except Fault`.
-/

namespace Smallshell

/-- A C string: the characters before the terminating NUL. -/
abbrev CStr := List Char

/-- The ways the modelled code can leave defined behaviour: `nullDeref` is a read
through `NULL`, `bufferOverflow` a store outside the allocation or array stored into.
`outOfFuel` is not a fault of the program: it is what a loop of the model answers when
its iteration budget is used up, which the budgets passed by the callers never allow. -/
inductive Fault where
  | nullDeref
  | bufferOverflow
  | outOfFuel
  deriving DecidableEq, Repr

deriving instance DecidableEq for Except

/-! ## Token expander (`main.c` lines 45-104) -/

/-- The loop of `is_substring_match`: the target is walked character by character
(the list is the rest of `targetString` from `targetIndex`), the source is read at
`sourceIndex`.  The terminator of the source (`none`) differs from every target
character, so the loop stops there with 0. -/
def is_substring_match_loop (sourceString : CStr) : List Char → Nat → Int
  | [], _ => 1
  | t :: rest, sourceIndex =>
    if sourceString[sourceIndex]? ≠ some t then 0
    else is_substring_match_loop sourceString rest (sourceIndex + 1)

/-- The function `is_substring_match(sourceString, targetString, startIndex)`
(lines 46-62). -/
def is_substring_match (sourceString targetString : CStr) (startIndex : Nat) : Int :=
  is_substring_match_loop sourceString targetString startIndex

/-- The store `output[writeIndex] = c; ++writeIndex` into an allocation of `size`
bytes.  `output` holds the bytes stored so far, so `writeIndex = output.length`;
a store at an index outside the allocation is a fault. -/
def store (size : Nat) (output : List Char) (c : Char) : Except Fault (List Char) :=
  if output.length < size then .ok (output ++ [c]) else .error .bufferOverflow

/-- The function `copy_replacement(outputString, replacementString, &writeIndex)`
(lines 64-71), which stores into the buffer of its caller, of `size` bytes: one store per
character of the replacement. -/
def copy_replacement (size : Nat) (output : List Char) : List Char → Except Fault (List Char)
  | [] => .ok output
  | r :: rest => do
    let output ← store size output r
    copy_replacement size output rest

/-- The `for` loop of `replace_string` (lines 83-101), with an iteration budget. -/
def replace_loop (size : Nat) (sourceStr targetStr replacementString : CStr) :
    Nat → Nat → List Char → Except Fault (List Char)
  | 0, _, _ => .error .outOfFuel
  | fuel + 1, readIndex, output =>
    match sourceStr[readIndex]? with
    | none => .ok output
    | some c =>
      if some c ≠ targetStr[0]? then do
        let output ← store size output c
        replace_loop size sourceStr targetStr replacementString fuel (readIndex + 1) output
      else if is_substring_match sourceStr targetStr readIndex ≠ 0 then do
        let output ← copy_replacement size output replacementString
        replace_loop size sourceStr targetStr replacementString fuel
          (readIndex + targetStr.length) output
      else do
        let output ← store size output c
        replace_loop size sourceStr targetStr replacementString fuel (readIndex + 1) output

/-- The final store `output[writeIndex] = 0` of `replace_string`. -/
def store_terminator (size : Nat) (output : List Char) : Except Fault CStr :=
  if output.length < size then .ok output else .error .bufferOverflow

/-- The function `replace_string(sourceStr, targetStr, replacementString)` (lines 73-104).
`malloc(2048)` is taken to succeed; a `NULL` source is read at `sourceStr[0]`. -/
def replace_string (sourceStr : Option CStr) (targetStr replacementString : CStr) :
    Except Fault CStr :=
  match sourceStr with
  | none => .error .nullDeref
  | some src => do
    let output ← replace_loop 2048 src targetStr replacementString (src.length + 1) 0 []
    store_terminator 2048 output

/-- The expansion as the specification words it (section 4.1): scan left to right,
replace each non-overlapping occurrence of the marker by the replacement, resume
right after the matched region, copy every other character; an empty marker has no
occurrence. -/
def expandSpec (marker replacement : List Char) (source : List Char) : List Char :=
  match source with
  | [] => []
  | c :: cs =>
    if marker ≠ [] ∧ marker <+: c :: cs then
      replacement ++ expandSpec marker replacement ((c :: cs).drop marker.length)
    else c :: expandSpec marker replacement cs
termination_by source.length
decreasing_by
  · rename_i h
    have hpos : 0 < marker.length := List.length_pos.mpr h.1
    simp only [List.length_drop, List.length_cons]
    omega
  · simp

/-! ## Command parser (`main.c` lines 256-334) -/

/-- The `strncmp(a, b, n) == 0` test: the two strings agree on their first `n`
characters (or are equal and shorter). -/
def strncmp_eq (a b : CStr) (n : Nat) : Bool :=
  decide (a.take n = b.take n)

/-- The call `strdup(s)`: a copy of the string; `strdup(NULL)` reads through `NULL`.
Allocation is taken to succeed. -/
def strdup : Option CStr → Except Fault CStr
  | none => .error .nullDeref
  | some s => .ok s

/-- One call of `strtok` on the text at its saved position: skip the leading
delimiters; at the end of the text return `NULL`; otherwise return the run of
non-delimiters and leave the saved position after the delimiter that ended it.
The first component is the returned token, the second the new saved position. -/
def strtok (delims : List Char) (saved : CStr) : Option CStr × CStr :=
  match saved.dropWhile (fun c => delims.contains c) with
  | [] => (none, [])
  | c :: rest =>
    (some ((c :: rest).takeWhile (fun d => !delims.contains d)),
      ((c :: rest).dropWhile (fun d => !delims.contains d)).drop 1)

/-- The array `char delimiters[] = " \t\n"` of `tokenize_and_store`. -/
def delimiters : List Char := [' ', '\t', '\n']

/-- The marker `"$$"` that both callers of `replace_string` pass. -/
def pid_marker : CStr := ['$', '$']

/-- What one run of the parser fills in: the slots of `parsedArgs` in store order and
the three out-parameters. -/
structure ParsedCommand where
  parsedArgs : List CStr
  isBackgroundProcess : Int
  redirectInputName : Option CStr
  redirectOutputName : Option CStr
  deriving DecidableEq, Repr

/-- The function `parse_special_symbols` (lines 282-300).  `saved` is the position `strtok` keeps
between calls, `foreground_mode` the value of the global flag read at line 298.  The
function only reads `*currentToken`; the pointer is handed back as it came in. -/
def parse_special_symbols (currentToken : Option CStr) (saved : CStr) (cmd : ParsedCommand)
    (pid_string : CStr) (seperators : List Char) (foreground_mode : Int) :
    Except Fault (Option CStr × CStr × ParsedCommand) :=
  match currentToken with
  | none => .error .nullDeref
  | some tok =>
    if strncmp_eq tok ['<'] 2048 then
      match strtok seperators saved with
      | (nextToken, saved) => do
        let name ← replace_string nextToken pid_marker pid_string
        .ok (currentToken, saved, { cmd with redirectInputName := some name })
    else if strncmp_eq tok ['>'] 2048 then
      match strtok seperators saved with
      | (nextToken, saved) => do
        let name ← replace_string nextToken pid_marker pid_string
        .ok (currentToken, saved, { cmd with redirectOutputName := some name })
    else if strncmp_eq tok ['&'] 2048 then
      .ok (currentToken, saved,
        { cmd with isBackgroundProcess := if foreground_mode = 0 then 1 else 0 })
    else .ok (currentToken, saved, cmd)

/-- The number of slots of the array `char* input[512]` that `main` (line 342) passes
down as `parsedArgs`. -/
def main_input_slots : Nat := 512

/-- The store `parsedArgs[argIndex] = arg` (with `argIndex++` in the loop) into the
caller's array of `slots` pointers.  `parsedArgs` holds the slots stored so far, so
`argIndex = parsedArgs.length`; the code does not test the index, and a store outside
the array is a fault. -/
def store_arg (slots : Nat) (parsedArgs : List CStr) (arg : CStr) :
    Except Fault (List CStr) :=
  if parsedArgs.length < slots then .ok (parsedArgs ++ [arg]) else .error .bufferOverflow

/-- The `while` loop of `tokenize_and_store` (lines 309-317), with an iteration
budget.  `slots` is the size of the caller's `parsedArgs` array. -/
def tokenize_loop (slots : Nat) (pid_string : CStr) (foreground_mode : Int) :
    Nat → CStr → ParsedCommand → Except Fault ParsedCommand
  | 0, _, _ => .error .outOfFuel
  | fuel + 1, saved, cmd =>
    match strtok delimiters saved with
    | (none, _) => .ok cmd
    | (some currentToken, saved) => do
      let (currentToken, saved, cmd) ←
        parse_special_symbols (some currentToken) saved cmd pid_string delimiters
          foreground_mode
      match currentToken with
      | none => tokenize_loop slots pid_string foreground_mode fuel saved cmd
      | some tok => do
        let arg ← replace_string (some tok) pid_marker pid_string
        let parsedArgs ← store_arg slots cmd.parsedArgs arg
        tokenize_loop slots pid_string foreground_mode fuel saved
          { cmd with parsedArgs := parsedArgs }

/-- The function `tokenize_and_store` (lines 302-318).  `slots` is the size of the
array the caller passes as `parsedArgs`, which comes in with no slot stored; the three
out-parameters come in with the values the caller gave them. -/
def tokenize_and_store (userInput : CStr) (slots : Nat) (isBackgroundProcess : Int)
    (redirectInputName redirectOutputName : Option CStr) (pid_string : CStr)
    (foreground_mode : Int) : Except Fault ParsedCommand :=
  match strtok delimiters userInput with
  | (currentToken, saved) => do
    let arg0 ← strdup currentToken
    let parsedArgs ← store_arg slots [] arg0
    tokenize_loop slots pid_string foreground_mode (userInput.length + 1) saved
      { parsedArgs := parsedArgs, isBackgroundProcess := isBackgroundProcess,
        redirectInputName := redirectInputName, redirectOutputName := redirectOutputName }

/-- The characters one `fgets` call takes from the stream when `room` more fit: up to
and including the first newline. -/
def fgets_take : Nat → List Char → CStr × List Char
  | 0, stream => ([], stream)
  | _ + 1, [] => ([], [])
  | room + 1, c :: stream =>
    if c = '\n' then ([c], stream)
    else ((fgets_take room stream).1.cons c, (fgets_take room stream).2)

/-- The call `fgets(buf, n, stdin)`: `NULL` at end of input, otherwise at most `n - 1`
characters, ending after a newline.  Returns the line and the rest of the stream. -/
def fgets (n : Nat) (stream : List Char) : Option (CStr × List Char) :=
  match stream with
  | [] => none
  | _ :: _ => some (fgets_take (n - 1) stream)

/-- The loop of `read_user_input` (lines 262-279), with an iteration budget.  `userInput`
is the current content of the buffer, which a failed `fgets` leaves as it is.  The
prompt written to standard output is not modelled. -/
def read_user_input_loop (maxInputSize : Nat) :
    Nat → CStr → List Char → Except Fault (CStr × List Char)
  | 0, _, _ => .error .outOfFuel
  | fuel + 1, userInput, stream =>
    match fgets maxInputSize stream with
    | none => .ok (userInput, stream)
    | some (line, stream) =>
      let isInputEmpty := strncmp_eq line ['\n'] 1
      let isInputComment := strncmp_eq line ['#'] 1
      if !isInputEmpty && !isInputComment then .ok (line, stream)
      else read_user_input_loop maxInputSize fuel line stream

/-- The function `read_user_input(userInput, maxInputSize)` (lines 257-280). -/
def read_user_input (userInput : CStr) (maxInputSize : Nat) (stream : List Char) :
    Except Fault (CStr × List Char) :=
  read_user_input_loop maxInputSize (stream.length + 1) userInput stream

/-- The function `get_the_input` (lines 320-334).  `slots` is the size of the array
passed as `parsedArgs`, `userInput` whatever the stack buffer holds on entry, `stream`
the unread standard input; the result is the parsed command and the rest of the
input. -/
def get_the_input (slots : Nat) (userInput : CStr) (stream : List Char) (pid : Int)
    (foreground_mode : Int) : Except Fault (ParsedCommand × List Char) := do
  let pid_string : CStr := (toString pid).toList
  let (userInput, stream) ← read_user_input userInput 2048 stream
  let cmd ← tokenize_and_store userInput slots 0 none none pid_string foreground_mode
  .ok (cmd, stream)

/-- Every token `strtok` returns on successive calls, starting at `saved`. -/
def strtok_all (delims : List Char) : Nat → CStr → List CStr
  | 0, _ => []
  | fuel + 1, saved =>
    match strtok delims saved with
    | (none, _) => []
    | (some tok, saved) => tok :: strtok_all delims fuel saved

/-- The tokens of an input line, in order. -/
def tokens (line : CStr) : List CStr :=
  strtok_all delimiters (line.length + 1) line

/-- Whether a token is `<` or `>`. -/
def is_redirect (tok : CStr) : Bool :=
  tok == ['<'] || tok == ['>']

/-- The tokens after the program name that the `while` loop of `tokenize_and_store`
itself receives: every token except the one that follows a received `<` or `>`, which
`parse_special_symbols` takes as the redirect target. -/
def loop_tokens : List CStr → List CStr
  | [] => []
  | [tok] => [tok]
  | tok :: next :: rest =>
    if is_redirect tok then tok :: loop_tokens rest
    else tok :: loop_tokens (next :: rest)

/-! ## Foreground-only toggle (`main.c` lines 21, 32-43) -/

/-- The text of `enterMsg`. -/
def enterMsg : String := "\nEntering foreground-only mode (& is ignored)\n"

/-- The text of `exitMsg`. -/
def exitMsg : String := "\nExiting foreground-only mode\n"

/-- The initial value of the global `foreground_mode`. -/
def foreground_mode_init : Int := 0

/-- The handler `parent_signal_handler` (lines 32-43), which does not look at its
signal number: the new value of `foreground_mode` and the `write` calls made on
standard output, each as the bytes written. -/
def parent_signal_handler (foreground_mode : Int) : Int × List String :=
  if foreground_mode = 0 then (1, [enterMsg]) else (0, [exitMsg])

/-- The values `foreground_mode` can hold: its initial value, and whatever a run of
`parent_signal_handler`, its only writer, leaves. -/
inductive Reachable : Int → Prop where
  | init : Reachable foreground_mode_init
  | step {m : Int} : Reachable m → Reachable (parent_signal_handler m).1

/-! ## Child side of the launcher (`main.c` lines 107-162) -/

/-- The signals the child configures. -/
inductive Signal where
  | SIGINT
  | SIGTSTP
  deriving DecidableEq, Repr

/-- A signal disposition passed to `signal`. -/
inductive Disposition where
  | SIG_IGN
  | child_signal_handler
  deriving DecidableEq, Repr

/-- The two flag sets `configureIOredirection` opens with. -/
inductive OpenFlags where
  | O_RDONLY
  | O_WRONLY_CREAT_TRUNC
  deriving DecidableEq, Repr

/-- The calls the child makes, in order, with what they returned. -/
inductive Event where
  | signal (sig : Signal) (disp : Disposition)
  | open_ (path : CStr) (flags : OpenFlags) (ret : Int)
  | dup2 (oldfd newfd ret : Int)
  | fcntl_cloexec (fd : Int)
  | perror (msg : String)
  | exit (code : Int)
  | execvp (file : Option CStr) (argv : List CStr)
  deriving DecidableEq, Repr

/-- Whether an event is a call of `execvp`. -/
def Event.is_execvp : Event → Bool
  | .execvp _ _ => true
  | _ => false

/-- The operating system as the child sees it: a state and the answers of `open`,
`dup2` and `execvp` in that state.  `execvp` answers `true` when the process image is
replaced, `false` when the call returns. -/
structure OS (σ : Type) where
  open_ : σ → CStr → OpenFlags → Int × σ
  dup2 : σ → Int → Int → Int × σ
  execvp : σ → Option CStr → List CStr → Bool

/-- How a function of the child ends: it returns to its caller, or it calls `exit`. -/
inductive Flow (σ : Type) where
  | returns (s : σ) (trace : List Event)
  | exits (code : Int) (trace : List Event)

/-- One half of `configureIOredirection`: open `file` with `flags`, duplicate the
descriptor onto `target`, set close-on-exec (lines 110-122 and 124-136). -/
def redirect_one {σ : Type} (os : OS σ) (s : σ) (file : Option CStr) (flags : OpenFlags)
    (target : Int) (openError dupError : String) : Flow σ :=
  match file with
  | none => .returns s []
  | some path =>
    match os.open_ s path flags with
    | (fd, s) =>
      if fd = -1 then
        .exits 1 [.open_ path flags fd, .perror openError, .exit 1]
      else
        match os.dup2 s fd target with
        | (dup, s) =>
          if dup = -1 then
            .exits 2 [.open_ path flags fd, .dup2 fd target dup, .perror dupError, .exit 2]
          else
            .returns s [.open_ path flags fd, .dup2 fd target dup, .fcntl_cloexec fd]

/-- The function `configureIOredirection(inFile, outFile)` (lines 107-137). -/
def configureIOredirection {σ : Type} (os : OS σ) (s : σ) (inFile outFile : Option CStr) :
    Flow σ :=
  match redirect_one os s inFile .O_RDONLY 0 "Error opening input file"
      "Error duplicating input file descriptor" with
  | .exits code trace => .exits code trace
  | .returns s trace =>
    match redirect_one os s outFile .O_WRONLY_CREAT_TRUNC 1 "Error opening output file"
        "Error duplicating output file descriptor" with
    | .exits code trace2 => .exits code (trace ++ trace2)
    | .returns s trace2 => .returns s (trace ++ trace2)

/-- How the child ends: with an exit code, or with its image replaced by the program. -/
inductive ChildEnd where
  | exited (code : Int)
  | replaced
  deriving DecidableEq, Repr

/-- A run of the child: the calls it made and how it ended. -/
structure ChildRun where
  trace : List Event
  ending : ChildEnd
  deriving DecidableEq, Repr

/-- The name `"/dev/null"`. -/
def dev_null : CStr := "/dev/null".toList

/-- The path a redirect side has after lines 143-149: a background child without one
gets `/dev/null`. -/
def resolve_redirect (redirect : Option CStr) (isBackgroundProcess : Int) : Option CStr :=
  if isBackgroundProcess = 1 then
    match redirect with
    | none => some dev_null
    | some path => some path
  else redirect

/-- The function `run_child_process` (lines 139-162); `EXIT_FAILURE` is 1. -/
def run_child_process {σ : Type} (os : OS σ) (s : σ) (commandArgs : List CStr)
    (stdinRedirect stdoutRedirect : Option CStr) (isBackgroundProcess : Int) : ChildRun :=
  let signals : List Event :=
    if isBackgroundProcess = 1 then
      [.signal .SIGTSTP .SIG_IGN, .signal .SIGINT .SIG_IGN]
    else
      [.signal .SIGTSTP .SIG_IGN, .signal .SIGINT .child_signal_handler]
  match configureIOredirection os s (resolve_redirect stdinRedirect isBackgroundProcess)
      (resolve_redirect stdoutRedirect isBackgroundProcess) with
  | .exits code trace => { trace := signals ++ trace, ending := .exited code }
  | .returns s trace =>
    if os.execvp s commandArgs.head? commandArgs then
      { trace := signals ++ trace ++ [.execvp commandArgs.head? commandArgs],
        ending := .replaced }
    else
      { trace := signals ++ trace ++
          [.execvp commandArgs.head? commandArgs, .perror "Error executing command", .exit 1],
        ending := .exited 1 }

/-! ## Concrete inputs used below -/

/-- A token of 820 dollar signs: 410 occurrences of the marker. -/
def dollar_token : CStr := List.replicate 820 '$'

/-- The input line `echo $$...$` (820 dollar signs) with its newline: 826 characters. -/
def dollar_line : CStr := "echo".toList ++ ' ' :: (dollar_token ++ ['\n'])

/-- A token of 2000 dollar signs: 1000 occurrences of the marker. -/
def long_dollar_token : CStr := List.replicate 2000 '$'

/-- The input line `echo $$...$` (2000 dollar signs) with its newline: 2006
characters. -/
def long_dollar_line : CStr := "echo".toList ++ ' ' :: (long_dollar_token ++ ['\n'])

/-- A system on which no file can be opened. -/
def os_no_files : OS Unit where
  open_ := fun _ _ _ => (-1, ())
  dup2 := fun _ _ newfd => (newfd, ())
  execvp := fun _ _ _ => true

/-! ## Lemmas on the token expander -/

theorem expandSpec_nil (marker replacement : List Char) :
    expandSpec marker replacement [] = [] := by
  rw [expandSpec]

theorem expandSpec_cons_hit (marker replacement : List Char) (c : Char) (cs : List Char)
    (h : marker ≠ [] ∧ marker <+: c :: cs) :
    expandSpec marker replacement (c :: cs)
      = replacement ++ expandSpec marker replacement ((c :: cs).drop marker.length) := by
  rw [expandSpec, if_pos h]

theorem expandSpec_cons_miss (marker replacement : List Char) (c : Char) (cs : List Char)
    (h : ¬ (marker ≠ [] ∧ marker <+: c :: cs)) :
    expandSpec marker replacement (c :: cs) = c :: expandSpec marker replacement cs := by
  rw [expandSpec, if_neg h]

theorem is_substring_match_loop_ne_zero (src : CStr) (tgt : List Char) (i : Nat) :
    is_substring_match_loop src tgt i ≠ 0 ↔ tgt <+: src.drop i := by
  induction tgt generalizing i with
  | nil => simp [is_substring_match_loop]
  | cons t rest ih =>
    unfold is_substring_match_loop
    by_cases hi : i < src.length
    · rw [List.drop_eq_getElem_cons hi, List.cons_prefix_cons]
      by_cases hc : src[i] = t
      · have h1 : src[i]? = some t := by
          rw [List.getElem?_eq_getElem hi, hc]
        simp only [h1, ne_eq, not_true_eq_false, if_false]
        have h2 := ih (i + 1)
        simp only [ne_eq] at h2
        rw [h2]
        simp [hc]
      · have h1 : src[i]? ≠ some t := by
          rw [List.getElem?_eq_getElem hi]
          simpa using hc
        simp only [h1, ne_eq, not_false_eq_true, if_true]
        simp [Ne.symm hc]
    · have h1 : src[i]? = none := List.getElem?_eq_none (Nat.le_of_not_lt hi)
      have h2 : src.drop i = [] := List.drop_eq_nil_of_le (Nat.le_of_not_lt hi)
      simp [h1, h2]

theorem is_substring_match_ne_zero (src tgt : CStr) (i : Nat) :
    is_substring_match src tgt i ≠ 0 ↔ tgt <+: src.drop i :=
  is_substring_match_loop_ne_zero src tgt i

theorem copy_replacement_fits (size : Nat) (rep out : List Char)
    (h : out.length + rep.length ≤ size) :
    copy_replacement size out rep = .ok (out ++ rep) := by
  induction rep generalizing out with
  | nil => simp [copy_replacement]
  | cons r rest ih =>
    simp only [List.length_cons] at h
    have hlt : out.length < size := by omega
    simp only [copy_replacement, store, hlt, if_true, bind, Except.bind]
    rw [ih (out ++ [r]) (by simp; omega)]
    simp

theorem copy_replacement_overflow (size : Nat) (rep out : List Char)
    (h : size < out.length + rep.length) (hout : out.length ≤ size) :
    copy_replacement size out rep = .error .bufferOverflow := by
  induction rep generalizing out with
  | nil => simp at h; omega
  | cons r rest ih =>
    simp only [List.length_cons] at h
    by_cases hlt : out.length < size
    · simp only [copy_replacement, store, hlt, if_true, bind, Except.bind]
      exact ih (out ++ [r]) (by simp; omega) (by simp; omega)
    · simp [copy_replacement, store, hlt, bind, Except.bind]

/-- The loop of `replace_string`, started anywhere inside the source with enough
budget, stores the specified expansion of the rest of the source after what is already
stored, or faults at the first store outside the allocation. -/
theorem replace_loop_eq (size : Nat) (src tgt rep : CStr) :
    ∀ (fuel ri : Nat) (out : List Char), ri ≤ src.length → src.length - ri < fuel →
      out.length ≤ size →
      replace_loop size src tgt rep fuel ri out =
        if (out ++ expandSpec tgt rep (src.drop ri)).length ≤ size
        then .ok (out ++ expandSpec tgt rep (src.drop ri))
        else .error .bufferOverflow := by
  intro fuel
  induction fuel with
  | zero => intro ri out _ h; omega
  | succ fuel ih =>
    intro ri out hri hfuel hout
    unfold replace_loop
    by_cases hi : ri < src.length
    · have hget : src[ri]? = some src[ri] := List.getElem?_eq_getElem hi
      have hdrop : src.drop ri = src[ri] :: src.drop (ri + 1) := List.drop_eq_getElem_cons hi
      rw [hget]
      simp only []
      -- the plain copy of the character at `ri`
      have hcopy : ¬ (tgt ≠ [] ∧ tgt <+: src.drop ri) →
          (do let output ← store size out src[ri]
              replace_loop size src tgt rep fuel (ri + 1) output) =
          if (out ++ expandSpec tgt rep (src.drop ri)).length ≤ size
          then .ok (out ++ expandSpec tgt rep (src.drop ri))
          else .error .bufferOverflow := by
        intro hmiss
        rw [hdrop] at hmiss
        rw [hdrop, expandSpec_cons_miss _ _ _ _ hmiss]
        by_cases hlt : out.length < size
        · simp only [store, hlt, if_true, bind, Except.bind]
          rw [ih (ri + 1) (out ++ [src[ri]]) (by omega) (by omega) (by simp; omega)]
          simp
        · have : ¬ (out.length + ((expandSpec tgt rep (List.drop (ri + 1) src)).length + 1) ≤ size) := by
            omega
          simp [store, hlt, bind, Except.bind, this]
      by_cases hhead : some src[ri] ≠ tgt[0]?
      · rw [if_pos hhead]
        apply hcopy
        rintro ⟨hne, hpre⟩
        obtain ⟨t, ts, rfl⟩ := List.exists_cons_of_ne_nil hne
        rw [hdrop, List.cons_prefix_cons] at hpre
        apply hhead
        simp [hpre.1]
      · rw [if_neg hhead]
        by_cases hm : is_substring_match src tgt ri ≠ 0
        · rw [if_pos hm]
          have hpre : tgt <+: src.drop ri := (is_substring_match_ne_zero src tgt ri).mp hm
          have hne : tgt ≠ [] := by
            rintro rfl
            simp at hhead
          have hpos : 0 < tgt.length := List.length_pos.mpr hne
          have hlen : tgt.length ≤ src.length - ri := by
            have := hpre.length_le
            simpa using this
          have hspec : expandSpec tgt rep (src.drop ri)
              = rep ++ expandSpec tgt rep (src.drop (ri + tgt.length)) := by
            have h1 : tgt ≠ [] ∧ tgt <+: src[ri] :: src.drop (ri + 1) := by
              rw [← hdrop]; exact ⟨hne, hpre⟩
            rw [hdrop, expandSpec_cons_hit _ _ _ _ h1, ← hdrop, List.drop_drop]
          rw [hspec]
          by_cases hfit : out.length + rep.length ≤ size
          · rw [copy_replacement_fits size rep out hfit]
            simp only [bind, Except.bind]
            rw [ih (ri + tgt.length) (out ++ rep) (by omega) (by omega) (by simpa using hfit)]
            simp [List.append_assoc]
          · rw [copy_replacement_overflow size rep out (by omega) hout]
            have : ¬ (out.length + (rep.length +
                (expandSpec tgt rep (List.drop (ri + tgt.length) src)).length) ≤ size) := by
              omega
            simp [bind, Except.bind, this]
        · rw [if_neg hm]
          apply hcopy
          rintro ⟨_, hpre⟩
          exact hm ((is_substring_match_ne_zero src tgt ri).mpr hpre)
    · have hnone : src[ri]? = none := List.getElem?_eq_none (Nat.le_of_not_lt hi)
      have hdrop : src.drop ri = [] := List.drop_eq_nil_of_le (Nat.le_of_not_lt hi)
      rw [hnone, hdrop, expandSpec_nil]
      simp [hout]

/-- What `replace_string` does on every non-null source: the specified expansion when
it fits the 2048-byte allocation together with its terminator, a store outside the
allocation otherwise. -/
theorem replace_string_eq (S M P : CStr) :
    replace_string (some S) M P =
      if (expandSpec M P S).length < 2048 then .ok (expandSpec M P S)
      else .error .bufferOverflow := by
  unfold replace_string
  simp only []
  rw [replace_loop_eq 2048 S M P (S.length + 1) 0 [] (by omega) (by omega) (by simp)]
  simp only [List.drop_zero, List.nil_append]
  by_cases h : (expandSpec M P S).length ≤ 2048
  · rw [if_pos h]
    simp only [bind, Except.bind, store_terminator]
  · rw [if_neg h, if_neg (by omega)]
    rfl


/-! ## Lemmas on the command parser -/

theorem strncmp_eq_single (tok : CStr) (c : Char) :
    strncmp_eq tok [c] 2048 = true ↔ tok = [c] := by
  unfold strncmp_eq
  rw [decide_eq_true_iff]
  constructor
  · intro h
    cases tok with
    | nil => simp at h
    | cons a rest =>
      simp only [List.take_succ_cons, List.take_nil, List.cons.injEq, List.take_eq_nil_iff] at h
      rcases h with ⟨rfl, h | h⟩
      · omega
      · rw [h]
  · rintro rfl
    rfl

theorem strtok_length (delims : List Char) (s r : CStr) (t : CStr)
    (h : strtok delims s = (some t, r)) : r.length < s.length := by
  unfold strtok at h
  have hle := (List.dropWhile_sublist (fun c => delims.contains c) (l := s)).length_le
  cases hd : s.dropWhile (fun c => delims.contains c) with
  | nil => rw [hd] at h; simp at h
  | cons c rest =>
    rw [hd] at h hle
    simp only [Prod.mk.injEq, Option.some.injEq] at h
    have h2 := (List.dropWhile_sublist (fun d => !delims.contains d) (l := c :: rest)).length_le
    rw [← h.2, List.length_drop]
    simp only [List.length_cons] at hle h2
    omega

theorem strtok_all_fuel (delims : List Char) :
    ∀ (f f2 : Nat) (s : CStr), s.length < f → s.length < f2 →
      strtok_all delims f s = strtok_all delims f2 s := by
  intro f
  induction f with
  | zero => intro f2 s h; omega
  | succ f ih =>
    intro f2 s h h2
    cases f2 with
    | zero => omega
    | succ f2 =>
      unfold strtok_all
      cases hs : strtok delims s with
      | mk t r =>
        cases t with
        | none => rfl
        | some t =>
          have := strtok_length delims s r t hs
          simp only []
          rw [ih f2 r (by omega) (by omega)]

theorem tokens_of_strtok_none (line r : CStr) (h : strtok delimiters line = (none, r)) :
    tokens line = [] := by
  unfold tokens strtok_all
  rw [h]

theorem tokens_of_strtok_some (line r t : CStr) (h : strtok delimiters line = (some t, r)) :
    tokens line = t :: tokens r := by
  have hlen := strtok_length delimiters line r t h
  unfold tokens
  rw [strtok_all, h]
  simp only []
  rw [strtok_all_fuel delimiters line.length (r.length + 1) r (by omega) (by omega)]

theorem loop_tokens_cons_plain (tok : CStr) (rest : List CStr) (h : is_redirect tok = false) :
    loop_tokens (tok :: rest) = tok :: loop_tokens rest := by
  cases rest with
  | nil => simp [loop_tokens]
  | cons n rest => simp [loop_tokens, h]

theorem loop_tokens_cons_redirect (tok n : CStr) (rest : List CStr)
    (h : is_redirect tok = true) :
    loop_tokens (tok :: n :: rest) = tok :: loop_tokens rest := by
  simp [loop_tokens, h]

theorem replace_string_error (src : Option CStr) (M P : CStr) (e : Fault)
    (h : replace_string src M P = .error e) : e ≠ .outOfFuel := by
  cases src with
  | none =>
    simp only [replace_string, Except.error.injEq] at h
    rw [← h]
    decide
  | some S =>
    rw [replace_string_eq] at h
    by_cases hfit : (expandSpec M P S).length < 2048
    · rw [if_pos hfit] at h
      cases h
    · rw [if_neg hfit] at h
      simp only [Except.error.injEq] at h
      rw [← h]
      decide

theorem store_arg_error (slots : Nat) (args : List CStr) (arg : CStr) (e : Fault)
    (h : store_arg slots args arg = .error e) : e ≠ .outOfFuel := by
  unfold store_arg at h
  by_cases hlt : args.length < slots
  · rw [if_pos hlt] at h
    cases h
  · rw [if_neg hlt] at h
    simp only [Except.error.injEq] at h
    rw [← h]
    decide

theorem store_arg_ok (slots : Nat) (args stored : List CStr) (arg : CStr)
    (h : store_arg slots args arg = .ok stored) : stored = args ++ [arg] := by
  unfold store_arg at h
  by_cases hlt : args.length < slots
  · rw [if_pos hlt] at h
    exact (Except.ok.inj h).symm
  · rw [if_neg hlt] at h
    cases h

/-- The end of one iteration of the parser loop, after `parse_special_symbols` has
returned: the expansion of the token and its store fault, or the rest of the loop runs
with the token appended. -/
theorem tokenize_tail (slots : Nat) (pid : CStr) (fg : Int) (fuel : Nat)
    (tok saved : CStr) (cmd : ParsedCommand) :
    (∃ e, e ≠ Fault.outOfFuel ∧
      (do
        let arg ← replace_string (some tok) pid_marker pid
        let parsedArgs ← store_arg slots cmd.parsedArgs arg
        tokenize_loop slots pid fg fuel saved { cmd with parsedArgs := parsedArgs })
        = .error e) ∨
    ∃ arg, cmd.parsedArgs.length < slots ∧
      (do
        let arg ← replace_string (some tok) pid_marker pid
        let parsedArgs ← store_arg slots cmd.parsedArgs arg
        tokenize_loop slots pid fg fuel saved { cmd with parsedArgs := parsedArgs })
        = tokenize_loop slots pid fg fuel saved
            { cmd with parsedArgs := cmd.parsedArgs ++ [arg] } := by
  cases hr : replace_string (some tok) pid_marker pid with
  | error e =>
    left
    exact ⟨e, replace_string_error _ _ _ e hr, by simp only [bind, Except.bind]⟩
  | ok arg =>
    cases hst : store_arg slots cmd.parsedArgs arg with
    | error e =>
      left
      exact ⟨e, store_arg_error _ _ _ e hst, by simp only [hst, bind, Except.bind]⟩
    | ok stored =>
      right
      have hlt : cmd.parsedArgs.length < slots := by
        by_contra hlt
        simp [store_arg, hlt] at hst
      refine ⟨arg, hlt, ?_⟩
      simp only [hst, bind, Except.bind]
      rw [store_arg_ok _ _ _ _ hst]

/-- One iteration of the parser loop that received a token: it faults, or it hands the
rest of the line and an updated command to the rest of the loop. -/
theorem tokenize_loop_unfold (slots : Nat) (pid : CStr) (fg : Int) (fuel : Nat)
    (saved saved1 tok : CStr)
    (cmd : ParsedCommand) (hs : strtok delimiters saved = (some tok, saved1)) :
    (∃ e, e ≠ Fault.outOfFuel ∧
      tokenize_loop slots pid fg (fuel + 1) saved cmd = .error e) ∨
    ∃ (cmd2 : ParsedCommand) (saved2 : CStr),
      tokenize_loop slots pid fg (fuel + 1) saved cmd
        = tokenize_loop slots pid fg fuel saved2 cmd2 ∧
      saved2.length ≤ saved1.length ∧ cmd.parsedArgs.length < slots ∧
      (∃ arg, cmd2.parsedArgs = cmd.parsedArgs ++ [arg]) ∧
      ((is_redirect tok = true ∧ (∃ n, strtok delimiters saved1 = (some n, saved2)) ∧
          cmd2.isBackgroundProcess = cmd.isBackgroundProcess) ∨
       (tok = ['&'] ∧ saved2 = saved1 ∧
          cmd2.isBackgroundProcess = if fg = 0 then 1 else 0) ∨
       (is_redirect tok = false ∧ tok ≠ ['&'] ∧ saved2 = saved1 ∧
          cmd2.isBackgroundProcess = cmd.isBackgroundProcess)) := by
  rw [tokenize_loop, hs]
  simp only [parse_special_symbols]
  -- the two redirect symbols behave alike
  have redirect : ∀ (upd : CStr → ParsedCommand),
      (∀ name, (upd name).parsedArgs = cmd.parsedArgs) →
      (∀ name, (upd name).isBackgroundProcess = cmd.isBackgroundProcess) →
      is_redirect tok = true →
      (∃ e, e ≠ Fault.outOfFuel ∧
        (do
          let (currentToken, saved, cmd) ←
            (match strtok delimiters saved1 with
              | (nextToken, saved) => do
                let name ← replace_string nextToken pid_marker pid
                Except.ok (some tok, saved, upd name))
          match currentToken with
          | none => tokenize_loop slots pid fg fuel saved cmd
          | some tok => do
            let arg ← replace_string (some tok) pid_marker pid
            let parsedArgs ← store_arg slots cmd.parsedArgs arg
            tokenize_loop slots pid fg fuel saved
              { cmd with parsedArgs := parsedArgs }) = .error e) ∨
      ∃ (cmd2 : ParsedCommand) (saved2 : CStr),
        (do
          let (currentToken, saved, cmd) ←
            (match strtok delimiters saved1 with
              | (nextToken, saved) => do
                let name ← replace_string nextToken pid_marker pid
                Except.ok (some tok, saved, upd name))
          match currentToken with
          | none => tokenize_loop slots pid fg fuel saved cmd
          | some tok => do
            let arg ← replace_string (some tok) pid_marker pid
            let parsedArgs ← store_arg slots cmd.parsedArgs arg
            tokenize_loop slots pid fg fuel saved
              { cmd with parsedArgs := parsedArgs })
          = tokenize_loop slots pid fg fuel saved2 cmd2 ∧
        saved2.length ≤ saved1.length ∧ cmd.parsedArgs.length < slots ∧
        (∃ arg, cmd2.parsedArgs = cmd.parsedArgs ++ [arg]) ∧
        ((is_redirect tok = true ∧ (∃ n, strtok delimiters saved1 = (some n, saved2)) ∧
            cmd2.isBackgroundProcess = cmd.isBackgroundProcess) ∨
         (tok = ['&'] ∧ saved2 = saved1 ∧
            cmd2.isBackgroundProcess = if fg = 0 then 1 else 0) ∨
         (is_redirect tok = false ∧ tok ≠ ['&'] ∧ saved2 = saved1 ∧
            cmd2.isBackgroundProcess = cmd.isBackgroundProcess)) := by
    intro upd hargs hbg hred
    cases hs2 : strtok delimiters saved1 with
    | mk n saved2 =>
      cases n with
      | none =>
        left
        exact ⟨.nullDeref, by decide, by simp [replace_string, bind, Except.bind]⟩
      | some n =>
        have hl2 := strtok_length delimiters saved1 saved2 n hs2
        cases hr : replace_string (some n) pid_marker pid with
        | error e =>
          left
          exact ⟨e, replace_string_error _ _ _ e hr, by simp [hr, bind, Except.bind]⟩
        | ok name =>
          rcases tokenize_tail slots pid fg fuel tok saved2 (upd name) with
            ⟨e, hne, he⟩ | ⟨arg, hroom, harg⟩
          · left
            refine ⟨e, hne, ?_⟩
            simp only [hr, bind, Except.bind]
            simp only [bind, Except.bind] at he
            exact he
          · right
            refine ⟨{ upd name with parsedArgs := (upd name).parsedArgs ++ [arg] }, saved2,
              ?_, by omega, by rw [← hargs name]; exact hroom, ⟨arg, by simp [hargs]⟩,
              Or.inl ⟨hred, ⟨n, rfl⟩, by simp [hbg]⟩⟩
            simp only [hr, bind, Except.bind]
            simp only [bind, Except.bind] at harg
            exact harg
  by_cases h1 : strncmp_eq tok ['<'] 2048 = true
  · have ht : tok = ['<'] := (strncmp_eq_single tok '<').mp h1
    rw [if_pos h1]
    exact redirect (fun name => { cmd with redirectInputName := some name })
      (fun _ => rfl) (fun _ => rfl) (by rw [ht]; rfl)
  · rw [if_neg h1]
    by_cases h2 : strncmp_eq tok ['>'] 2048 = true
    · have ht : tok = ['>'] := (strncmp_eq_single tok '>').mp h2
      rw [if_pos h2]
      exact redirect (fun name => { cmd with redirectOutputName := some name })
        (fun _ => rfl) (fun _ => rfl) (by rw [ht]; rfl)
    · rw [if_neg h2]
      have hnr : is_redirect tok = false := by
        have a1 : tok ≠ ['<'] := fun e => h1 ((strncmp_eq_single tok '<').mpr e)
        have a2 : tok ≠ ['>'] := fun e => h2 ((strncmp_eq_single tok '>').mpr e)
        simp [is_redirect, a1, a2]
      by_cases h3 : strncmp_eq tok ['&'] 2048 = true
      · have ht : tok = ['&'] := (strncmp_eq_single tok '&').mp h3
        rw [if_pos h3]
        rcases tokenize_tail slots pid fg fuel tok saved1
            { cmd with isBackgroundProcess := if fg = 0 then 1 else 0 } with
          ⟨e, hne, he⟩ | ⟨arg, hroom, harg⟩
        · left
          refine ⟨e, hne, ?_⟩
          simp only [bind, Except.bind]
          simp only [bind, Except.bind] at he
          exact he
        · right
          refine ⟨{ cmd with isBackgroundProcess := if fg = 0 then 1 else 0,
                             parsedArgs := cmd.parsedArgs ++ [arg] }, saved1,
            ?_, le_refl _, hroom, ⟨arg, rfl⟩, Or.inr (Or.inl ⟨ht, rfl, rfl⟩)⟩
          simp only [bind, Except.bind]
          simp only [bind, Except.bind] at harg
          exact harg
      · rw [if_neg h3]
        have a3 : tok ≠ ['&'] := fun e => h3 ((strncmp_eq_single tok '&').mpr e)
        rcases tokenize_tail slots pid fg fuel tok saved1 cmd with
          ⟨e, hne, he⟩ | ⟨arg, hroom, harg⟩
        · left
          refine ⟨e, hne, ?_⟩
          simp only [bind, Except.bind]
          simp only [bind, Except.bind] at he
          exact he
        · right
          refine ⟨{ cmd with parsedArgs := cmd.parsedArgs ++ [arg] }, saved1,
            ?_, le_refl _, hroom, ⟨arg, rfl⟩, Or.inr (Or.inr ⟨hnr, a3, rfl, rfl⟩)⟩
          simp only [bind, Except.bind]
          simp only [bind, Except.bind] at harg
          exact harg

/-- One iteration of the parser loop that received a token and went on to complete:
what the iteration left for the rest of the loop. -/
theorem tokenize_loop_step (slots : Nat) (pid : CStr) (fg : Int) (fuel : Nat)
    (saved saved1 tok : CStr) (cmd cmd1 : ParsedCommand)
    (hs : strtok delimiters saved = (some tok, saved1))
    (h : tokenize_loop slots pid fg (fuel + 1) saved cmd = .ok cmd1) :
    ∃ (cmd2 : ParsedCommand) (saved2 : CStr),
      tokenize_loop slots pid fg fuel saved2 cmd2 = .ok cmd1 ∧
      cmd.parsedArgs.length < slots ∧
      (∃ arg, cmd2.parsedArgs = cmd.parsedArgs ++ [arg]) ∧
      ((is_redirect tok = true ∧ (∃ n, strtok delimiters saved1 = (some n, saved2)) ∧
          cmd2.isBackgroundProcess = cmd.isBackgroundProcess) ∨
       (tok = ['&'] ∧ saved2 = saved1 ∧
          cmd2.isBackgroundProcess = if fg = 0 then 1 else 0) ∨
       (is_redirect tok = false ∧ tok ≠ ['&'] ∧ saved2 = saved1 ∧
          cmd2.isBackgroundProcess = cmd.isBackgroundProcess)) := by
  rcases tokenize_loop_unfold slots pid fg fuel saved saved1 tok cmd hs with
    ⟨e, _, he⟩ | ⟨cmd2, saved2, heq, _, hroom, hargs, hcase⟩
  · rw [he] at h
    cases h
  · exact ⟨cmd2, saved2, by rw [← heq]; exact h, hroom, hargs, hcase⟩

/-- With a budget above the length of the rest of the line the parser loop never runs
out of it: it completes or stops at a fault of the program. -/
theorem tokenize_loop_fuel_suffices (slots : Nat) (pid : CStr) (fg : Int) :
    ∀ (fuel : Nat) (saved : CStr) (cmd : ParsedCommand), saved.length < fuel →
      tokenize_loop slots pid fg fuel saved cmd ≠ .error .outOfFuel := by
  intro fuel
  induction fuel with
  | zero => intro saved cmd h; omega
  | succ fuel ih =>
    intro saved cmd hlen
    cases hs : strtok delimiters saved with
    | mk t saved1 =>
      cases t with
      | none =>
        rw [tokenize_loop, hs]
        exact fun h => Except.noConfusion h
      | some tok =>
        have hl1 := strtok_length delimiters saved saved1 tok hs
        rcases tokenize_loop_unfold slots pid fg fuel saved saved1 tok cmd hs with
          ⟨e, hne, he⟩ | ⟨cmd2, saved2, heq, hl2, -, -, -⟩
        · rw [he]
          intro h
          exact hne (Except.error.inj h)
        · rw [heq]
          exact ih saved2 cmd2 (by omega)

/-- What the start of `tokenize_and_store` amounts to on a line with a first token and
an array with at least one slot. -/
theorem tokenize_and_store_first (line t0 saved pid : CStr) (slots : Nat) (bg fg : Int)
    (rin rout : Option CStr) (hs : strtok delimiters line = (some t0, saved))
    (hslots : 0 < slots) :
    tokenize_and_store line slots bg rin rout pid fg
      = tokenize_loop slots pid fg (line.length + 1) saved
          { parsedArgs := [t0], isBackgroundProcess := bg,
            redirectInputName := rin, redirectOutputName := rout } := by
  unfold tokenize_and_store
  rw [hs]
  simp only [strdup, store_arg, List.length_nil, hslots, if_true, bind, Except.bind,
    List.nil_append]

/-- A completed parse had a first token and an array with at least one slot. -/
theorem tokenize_and_store_ok (line pid : CStr) (slots : Nat) (bg fg : Int)
    (rin rout : Option CStr) (cmd : ParsedCommand)
    (h : tokenize_and_store line slots bg rin rout pid fg = .ok cmd) :
    ∃ t0 saved, strtok delimiters line = (some t0, saved) ∧ 0 < slots := by
  cases hs : strtok delimiters line with
  | mk t saved =>
    cases t with
    | none =>
      unfold tokenize_and_store at h
      rw [hs] at h
      simp [strdup, bind, Except.bind] at h
    | some t0 =>
      refine ⟨t0, saved, rfl, ?_⟩
      by_contra hz
      unfold tokenize_and_store at h
      rw [hs] at h
      simp [strdup, store_arg, hz, bind, Except.bind] at h

/-- The parse of a line never runs out of budget: it completes, reads through `NULL`,
or stores outside an allocation or array. -/
theorem tokenize_and_store_total (line pid : CStr) (slots : Nat) (bg fg : Int)
    (rin rout : Option CStr) :
    (∃ cmd, tokenize_and_store line slots bg rin rout pid fg = .ok cmd) ∨
    tokenize_and_store line slots bg rin rout pid fg = .error .nullDeref ∨
    tokenize_and_store line slots bg rin rout pid fg = .error .bufferOverflow := by
  have hfuel : tokenize_and_store line slots bg rin rout pid fg ≠ .error .outOfFuel := by
    cases hs : strtok delimiters line with
    | mk t saved =>
      cases t with
      | none =>
        unfold tokenize_and_store
        rw [hs]
        simp only [strdup, bind, Except.bind]
        exact fun h => Fault.noConfusion (Except.error.inj h)
      | some t0 =>
        have hlen := strtok_length delimiters line saved t0 hs
        by_cases hslots : 0 < slots
        · rw [tokenize_and_store_first line t0 saved pid slots bg fg rin rout hs hslots]
          exact tokenize_loop_fuel_suffices slots pid fg (line.length + 1) saved _ (by omega)
        · unfold tokenize_and_store
          rw [hs]
          simp only [strdup, store_arg, List.length_nil, hslots, if_false, bind, Except.bind]
          exact fun h => Fault.noConfusion (Except.error.inj h)
  cases hres : tokenize_and_store line slots bg rin rout pid fg with
  | ok cmd => exact Or.inl ⟨cmd, rfl⟩
  | error e =>
    rw [hres] at hfuel
    cases e with
    | nullDeref => exact Or.inr (Or.inl rfl)
    | bufferOverflow => exact Or.inr (Or.inr rfl)
    | outOfFuel => exact absurd rfl hfuel

/-- A completed run of the parser loop stored at most as many arguments as the array
has slots. -/
theorem tokenize_loop_within_slots (slots : Nat) (pid : CStr) (fg : Int) :
    ∀ (fuel : Nat) (saved : CStr) (cmd cmd1 : ParsedCommand),
      cmd.parsedArgs.length ≤ slots →
      tokenize_loop slots pid fg fuel saved cmd = .ok cmd1 →
      cmd1.parsedArgs.length ≤ slots := by
  intro fuel
  induction fuel with
  | zero => intro saved cmd cmd1 _ h; simp [tokenize_loop] at h
  | succ fuel ih =>
    intro saved cmd cmd1 hle h
    cases hs : strtok delimiters saved with
    | mk t saved1 =>
      cases t with
      | none =>
        rw [tokenize_loop, hs] at h
        simp only [Except.ok.injEq] at h
        rw [← h]
        exact hle
      | some tok =>
        obtain ⟨cmd2, saved2, hrest, hroom, ⟨arg, harg⟩, -⟩ :=
          tokenize_loop_step slots pid fg fuel saved saved1 tok cmd cmd1 hs h
        refine ih saved2 cmd2 cmd1 ?_ hrest
        rw [harg]
        simp only [List.length_append, List.length_cons, List.length_nil]
        omega

/-- The background flag a completed run of the parser loop leaves. -/
theorem tokenize_loop_background (slots : Nat) (pid : CStr) (fg : Int) :
    ∀ (fuel : Nat) (saved : CStr) (cmd cmd1 : ParsedCommand), saved.length < fuel →
      tokenize_loop slots pid fg fuel saved cmd = .ok cmd1 →
      cmd1.isBackgroundProcess =
        if ['&'] ∈ loop_tokens (tokens saved) then (if fg = 0 then 1 else 0)
        else cmd.isBackgroundProcess := by
  intro fuel
  induction fuel with
  | zero => intro saved cmd cmd1 h; omega
  | succ fuel ih =>
    intro saved cmd cmd1 hlen h
    cases hs : strtok delimiters saved with
    | mk t saved1 =>
      cases t with
      | none =>
        rw [tokenize_loop, hs] at h
        simp only [Except.ok.injEq] at h
        rw [tokens_of_strtok_none saved saved1 hs, ← h]
        simp [loop_tokens]
      | some tok =>
        have hl1 := strtok_length delimiters saved saved1 tok hs
        obtain ⟨cmd2, saved2, hrest, -, -, hcase⟩ :=
          tokenize_loop_step slots pid fg fuel saved saved1 tok cmd cmd1 hs h
        rw [tokens_of_strtok_some saved saved1 tok hs]
        rcases hcase with ⟨hred, ⟨n, hn⟩, hbg⟩ | ⟨ht, hsv, hbg⟩ | ⟨hred, hne, hsv, hbg⟩
        · have hl2 := strtok_length delimiters saved1 saved2 n hn
          have hamp : tok ≠ ['&'] := by
            rintro rfl
            simp [is_redirect] at hred
          rw [tokens_of_strtok_some saved1 saved2 n hn, loop_tokens_cons_redirect tok n _ hred,
            ih saved2 cmd2 cmd1 (by omega) hrest, hbg]
          simp [Ne.symm hamp]
        · subst hsv
          have hred : is_redirect tok = false := by rw [ht]; rfl
          rw [loop_tokens_cons_plain tok _ hred, ih saved2 cmd2 cmd1 (by omega) hrest, hbg, ht]
          simp
        · subst hsv
          rw [loop_tokens_cons_plain tok _ hred, ih saved2 cmd2 cmd1 (by omega) hrest, hbg]
          simp [Ne.symm hne]

/-- A completed run of the parser loop only appends to `parsedArgs`. -/
theorem tokenize_loop_args (slots : Nat) (pid : CStr) (fg : Int) :
    ∀ (fuel : Nat) (saved : CStr) (cmd cmd1 : ParsedCommand),
      tokenize_loop slots pid fg fuel saved cmd = .ok cmd1 →
      ∃ extra, cmd1.parsedArgs = cmd.parsedArgs ++ extra := by
  intro fuel
  induction fuel with
  | zero => intro saved cmd cmd1 h; simp [tokenize_loop] at h
  | succ fuel ih =>
    intro saved cmd cmd1 h
    cases hs : strtok delimiters saved with
    | mk t saved1 =>
      cases t with
      | none =>
        rw [tokenize_loop, hs] at h
        simp only [Except.ok.injEq] at h
        exact ⟨[], by rw [← h]; simp⟩
      | some tok =>
        obtain ⟨cmd2, saved2, hrest, -, ⟨arg, harg⟩, -⟩ :=
          tokenize_loop_step slots pid fg fuel saved saved1 tok cmd cmd1 hs h
        obtain ⟨extra, hextra⟩ := ih saved2 cmd2 cmd1 hrest
        exact ⟨arg :: extra, by rw [hextra, harg]; simp⟩


theorem expandSpec_no_marker (m : Char) (ms P : List Char) :
    ∀ (S : List Char), (∀ c ∈ S, c ≠ m) → expandSpec (m :: ms) P S = S := by
  intro S
  induction S with
  | nil => intro _; exact expandSpec_nil _ _
  | cons c cs ih =>
    intro h
    have hmiss : ¬ (m :: ms ≠ [] ∧ m :: ms <+: c :: cs) := by
      rintro ⟨_, hpre⟩
      rw [List.cons_prefix_cons] at hpre
      exact h c (List.mem_cons_self c cs) hpre.1.symm
    rw [expandSpec_cons_miss _ _ _ _ hmiss, ih (fun d hd => h d (List.mem_cons_of_mem c hd))]

theorem expandSpec_dollars_length (P : List Char) (k : Nat) :
    (expandSpec pid_marker P (List.replicate (2 * k) '$')).length = k * P.length := by
  induction k with
  | zero => simp [expandSpec_nil]
  | succ k ih =>
    have hrep : List.replicate (2 * (k + 1)) '$' = '$' :: '$' :: List.replicate (2 * k) '$' := by
      rw [show 2 * (k + 1) = 2 * k + 1 + 1 by ring]
      rfl
    have hhit : pid_marker ≠ [] ∧ pid_marker <+: '$' :: '$' :: List.replicate (2 * k) '$' :=
      ⟨by simp [pid_marker], ⟨List.replicate (2 * k) '$', rfl⟩⟩
    rw [hrep, expandSpec_cons_hit _ _ _ _ hhit]
    simp only [pid_marker, List.length_cons, List.length_nil, List.drop_succ_cons, List.drop_zero,
      List.length_append]
    have ih2 := ih
    simp only [pid_marker] at ih2
    rw [ih2]
    ring

theorem strtok_token (tok rest : CStr) (d : Char) (hne : tok ≠ [])
    (htok : ∀ c ∈ tok, delimiters.contains c = false) (hd : delimiters.contains d = true) :
    strtok delimiters (tok ++ d :: rest) = (some tok, rest) := by
  obtain ⟨c, cs, rfl⟩ := List.exists_cons_of_ne_nil hne
  have htok2 : ∀ a ∈ c :: cs, a ∉ delimiters := fun a ha => by simpa using htok a ha
  have hd2 : d ∈ delimiters := by simpa using hd
  have hc : c ∉ delimiters := htok2 c (List.mem_cons_self c cs)
  have htake : ((c :: cs) ++ d :: rest).takeWhile (fun x => !delimiters.contains x)
      = c :: cs := by
    rw [List.takeWhile_append_of_pos (by intro a ha; simp [htok2 a ha])]
    simp [hd2]
  have hdropw : ((c :: cs) ++ d :: rest).dropWhile (fun x => !delimiters.contains x)
      = d :: rest := by
    rw [List.dropWhile_append_of_pos (by intro a ha; simp [htok2 a ha])]
    simp [hd2]
  have hskip : ((c :: cs) ++ d :: rest).dropWhile (fun x => delimiters.contains x)
      = c :: (cs ++ d :: rest) := by
    simp [hc]
  unfold strtok
  rw [hskip]
  have e : c :: (cs ++ d :: rest) = (c :: cs) ++ d :: rest := rfl
  simp only [e, htake, hdropw, List.drop_succ_cons, List.drop_zero]

theorem dollars_not_single (n : Nat) (hn : n ≠ 1) (c : Char) :
    strncmp_eq (List.replicate n '$') [c] 2048 = false := by
  rw [Bool.eq_false_iff]
  intro h
  have h2 := congrArg List.length ((strncmp_eq_single (List.replicate n '$') c).mp h)
  rw [List.length_replicate] at h2
  exact hn h2

theorem dollars_no_delimiter (n : Nat) :
    ∀ c ∈ List.replicate n '$', delimiters.contains c = false := by
  intro c hc
  rw [List.eq_of_mem_replicate hc]
  decide

/-- A token of `2 * k` dollar signs whose expansion needs 2048 characters or more makes
`replace_string` store outside its allocation. -/
theorem dollars_overflow (k : Nat) (P : CStr) (h : 2048 ≤ k * P.length) :
    replace_string (some (List.replicate (2 * k) '$')) pid_marker P
      = .error .bufferOverflow := by
  rw [replace_string_eq, expandSpec_dollars_length, if_neg (by omega)]

/-- The first `strtok` call on the line `echo`, blank, `n` dollar signs, newline. -/
theorem echo_line_first (n : Nat) :
    strtok delimiters ("echo".toList ++ ' ' :: (List.replicate n '$' ++ ['\n']))
      = (some "echo".toList, List.replicate n '$' ++ ['\n']) :=
  strtok_token "echo".toList (List.replicate n '$' ++ ['\n']) ' ' (by decide) (by decide)
    (by decide)

/-- The second `strtok` call on that line. -/
theorem echo_line_second (n : Nat) (hn : 0 < n) :
    strtok delimiters (List.replicate n '$' ++ ['\n']) = (some (List.replicate n '$'), []) :=
  strtok_token (List.replicate n '$') [] '\n'
    (fun h => by
      have h2 := congrArg List.length h
      rw [List.length_replicate] at h2
      simp only [List.length_nil] at h2
      omega)
    (dollars_no_delimiter n) (by decide)

theorem echo_line_tokens (n : Nat) (hn : 0 < n) :
    tokens ("echo".toList ++ ' ' :: (List.replicate n '$' ++ ['\n']))
      = ["echo".toList, List.replicate n '$'] := by
  have h3 : strtok delimiters [] = (none, []) := rfl
  rw [tokens_of_strtok_some _ _ _ (echo_line_first n),
    tokens_of_strtok_some _ _ _ (echo_line_second n hn), tokens_of_strtok_none _ _ h3]

/-- A fault of the parse of the accepted line is a fault of `get_the_input`. -/
theorem get_the_input_fault (slots : Nat) (buf stream rest : List Char) (pid fg : Int)
    (pid_string : CStr) (e : Fault) (hpid : (toString pid).toList = pid_string) {line : CStr}
    (hread : read_user_input buf 2048 stream = .ok (line, rest))
    (hparse : tokenize_and_store line slots 0 none none pid_string fg = .error e) :
    get_the_input slots buf stream pid fg = .error e := by
  unfold get_the_input
  simp only [hread, hpid, hparse, bind, Except.bind]

/-- A fault of the expander on the second token of a line is a fault of the parse. -/
theorem tokenize_and_store_second_token_fault (line t0 saved1 tok saved2 pid : CStr)
    (slots : Nat) (bg fg : Int) (rin rout : Option CStr) (e : Fault) (hslots : 0 < slots)
    (h1 : strtok delimiters line = (some t0, saved1))
    (h2 : strtok delimiters saved1 = (some tok, saved2))
    (hlt : strncmp_eq tok ['<'] 2048 = false) (hgt : strncmp_eq tok ['>'] 2048 = false)
    (hamp : strncmp_eq tok ['&'] 2048 = false)
    (hr : replace_string (some tok) pid_marker pid = .error e) :
    tokenize_and_store line slots bg rin rout pid fg = .error e := by
  rw [tokenize_and_store_first line t0 saved1 pid slots bg fg rin rout h1 hslots,
    tokenize_loop, h2]
  simp only [parse_special_symbols, hlt, hgt, hamp, bind, Except.bind, hr,
    Bool.false_eq_true, if_false]

/-- The parse of the line `echo`, blank, `2 * k` dollar signs, newline faults when the
expansion of the dollar signs needs 2048 characters or more. -/
theorem echo_line_parse_overflows (k : Nat) (P : CStr) (slots : Nat) (fg : Int)
    (hslots : 0 < slots) (h : 2048 ≤ k * P.length) :
    tokenize_and_store ("echo".toList ++ ' ' :: (List.replicate (2 * k) '$' ++ ['\n']))
      slots 0 none none P fg = .error .bufferOverflow := by
  have hk : 0 < k := Nat.pos_of_ne_zero (fun hz => by rw [hz] at h; simp at h)
  exact tokenize_and_store_second_token_fault _ "echo".toList
    (List.replicate (2 * k) '$' ++ ['\n']) (List.replicate (2 * k) '$') [] P slots 0 fg
    none none .bufferOverflow hslots (echo_line_first (2 * k))
    (echo_line_second (2 * k) (by omega)) (dollars_not_single (2 * k) (by omega) '<')
    (dollars_not_single (2 * k) (by omega) '>') (dollars_not_single (2 * k) (by omega) '&')
    (dollars_overflow k P h)

theorem fgets_take_rest_le : ∀ (room : Nat) (stream : List Char),
    (fgets_take room stream).2.length ≤ stream.length := by
  intro room
  induction room with
  | zero => intro stream; simp [fgets_take]
  | succ room ih =>
    intro stream
    cases stream with
    | nil => simp [fgets_take]
    | cons c rest =>
      by_cases hc : c = '\n'
      · simp [fgets_take, hc]
      · have := ih rest
        simp only [fgets_take, hc, if_false, List.length_cons]
        omega

theorem fgets_consumes (n : Nat) (stream rest : List Char) (line : CStr) (hn : 2 ≤ n)
    (h : fgets n stream = some (line, rest)) : rest.length < stream.length := by
  cases stream with
  | nil => simp [fgets] at h
  | cons c cs =>
    obtain ⟨m, rfl⟩ : ∃ m, n = m + 2 := ⟨n - 2, by omega⟩
    simp only [fgets, Nat.add_sub_cancel, Option.some.injEq] at h
    have hle := fgets_take_rest_le m cs
    by_cases hc : c = '\n'
    · simp only [fgets_take, hc, if_true, Prod.mk.injEq] at h
      rw [← h.2]
      simp
    · simp only [fgets_take, hc, if_false, Prod.mk.injEq] at h
      rw [← h.2]
      simp only [List.length_cons]
      omega

/-- The loop of `read_user_input` never runs out of its budget when the buffer holds at
least one character besides the terminator. -/
theorem read_user_input_fuel_suffices (userInput : CStr) (maxInputSize : Nat)
    (stream : List Char) (hn : 2 ≤ maxInputSize) :
    read_user_input userInput maxInputSize stream ≠ .error .outOfFuel := by
  unfold read_user_input
  suffices hloop : ∀ (fuel : Nat) (buf : CStr) (str : List Char), str.length < fuel →
      read_user_input_loop maxInputSize fuel buf str ≠ .error .outOfFuel from
    hloop (stream.length + 1) userInput stream (by omega)
  intro fuel
  induction fuel with
  | zero => intro buf str h; omega
  | succ fuel ih =>
    intro buf str hlen
    unfold read_user_input_loop
    cases hf : fgets maxInputSize str with
    | none => exact fun h => Except.noConfusion h
    | some res =>
      obtain ⟨line, rest⟩ := res
      have hlt := fgets_consumes maxInputSize str rest line hn hf
      simp only []
      by_cases hacc : (!strncmp_eq line ['\n'] 1 && !strncmp_eq line ['#'] 1) = true
      · rw [if_pos hacc]
        exact fun h => Except.noConfusion h
      · rw [if_neg hacc]
        exact ih line rest (by omega)

theorem fgets_take_line : ∀ (body : List Char) (room : Nat), '\n' ∉ body →
    body.length < room → fgets_take room (body ++ ['\n']) = (body ++ ['\n'], []) := by
  intro body
  induction body with
  | nil =>
    intro room _ hlen
    obtain ⟨m, rfl⟩ : ∃ m, room = m + 1 := ⟨room - 1, by simp at hlen; omega⟩
    simp [fgets_take]
  | cons c cs ih =>
    intro room hnl hlen
    simp only [List.length_cons] at hlen
    obtain ⟨m, rfl⟩ : ∃ m, room = m + 1 := ⟨room - 1, by omega⟩
    have hc : c ≠ '\n' := fun e => hnl (by rw [e]; exact List.mem_cons_self _ _)
    have hcs : '\n' ∉ cs := fun h => hnl (List.mem_cons_of_mem _ h)
    have hrec := ih m hcs (by omega)
    show fgets_take (m + 1) (c :: (cs ++ ['\n'])) = (c :: (cs ++ ['\n']), [])
    rw [fgets_take, if_neg hc, hrec]

/-- A line that fits the buffer, ends in a newline and starts with neither a newline
nor `#` is what `read_user_input` hands to the parser. -/
theorem read_user_input_accepts (buf body : CStr) (c : Char) (n : Nat)
    (hc : c ≠ '\n') (hc2 : c ≠ '#') (hnl : '\n' ∉ body) (hlen : body.length + 2 < n) :
    read_user_input buf n (c :: (body ++ ['\n'])) = .ok (c :: (body ++ ['\n']), []) := by
  have hbody : '\n' ∉ c :: body := by
    intro h
    rcases List.mem_cons.mp h with h | h
    · exact hc h.symm
    · exact hnl h
  have htake : fgets_take (n - 1) (c :: (body ++ ['\n'])) = (c :: (body ++ ['\n']), []) :=
    fgets_take_line (c :: body) (n - 1) hbody (by simp only [List.length_cons]; omega)
  have h1 : strncmp_eq (c :: (body ++ ['\n'])) ['\n'] 1 = false := by
    simp [strncmp_eq, hc]
  have h2 : strncmp_eq (c :: (body ++ ['\n'])) ['#'] 1 = false := by
    simp [strncmp_eq, hc2]
  unfold read_user_input
  rw [read_user_input_loop]
  simp only [fgets, htake, h1, h2]
  rfl

/-- The line `echo`, blank, `n` dollar signs, newline is accepted by `read_user_input`
when it fits the 2048-byte buffer. -/
theorem echo_line_accepted (n : Nat) (hn : n + 7 < 2048) :
    read_user_input [] 2048 ("echo".toList ++ ' ' :: (List.replicate n '$' ++ ['\n']))
      = .ok ("echo".toList ++ ' ' :: (List.replicate n '$' ++ ['\n']), []) := by
  have hnl : '\n' ∉ "cho".toList ++ ' ' :: List.replicate n '$' := by
    intro h
    rcases List.mem_append.mp h with h | h
    · revert h; decide
    · rcases List.mem_cons.mp h with h | h
      · revert h; decide
      · have := dollars_no_delimiter n _ h
        revert this; decide
  have hlen : ("cho".toList ++ ' ' :: List.replicate n '$').length + 2 < 2048 := by
    simp only [List.length_append, List.length_cons, List.length_replicate]
    have : "cho".toList.length = 3 := rfl
    omega
  have h := read_user_input_accepts [] ("cho".toList ++ ' ' :: List.replicate n '$') 'e' 2048
    (by decide) (by decide) hnl hlen
  have e : "echo".toList ++ ' ' :: (List.replicate n '$' ++ ['\n'])
      = 'e' :: (("cho".toList ++ ' ' :: List.replicate n '$') ++ ['\n']) := by
    simp
  rw [e]
  exact h

theorem echo_line_length (n : Nat) :
    ("echo".toList ++ ' ' :: (List.replicate n '$' ++ ['\n'])).length = n + 6 := by
  simp only [List.length_append, List.length_cons, List.length_replicate, List.length_nil]
  have : "echo".toList.length = 4 := rfl
  omega

/-- Where the specified expansion fits the allocation with its terminator,
`replace_string` returns it. -/
theorem replace_string_refines_expandSpec (S M P : CStr)
    (hfit : (expandSpec M P S).length ≤ 2047) :
    replace_string (some S) M P = .ok (expandSpec M P S) := by
  rw [replace_string_eq, if_pos (by omega)]

/-- The two expansions the specification names: `a$$b` gives `a123b` and `$$$` gives
`123$` with the PID text `123`. -/
theorem replace_string_examples :
    expandSpec "$$".toList "123".toList "a$$b".toList = "a123b".toList ∧
    replace_string (some "a$$b".toList) "$$".toList "123".toList = .ok "a123b".toList ∧
    expandSpec "$$".toList "123".toList "$$$".toList = "123$".toList ∧
    replace_string (some "$$$".toList) "$$".toList "123".toList = .ok "123$".toList := by
  have hspec : expandSpec "$$".toList "123".toList "a$$b".toList = "a123b".toList := by
    simp [expandSpec]
  have hspec2 : expandSpec "$$".toList "123".toList "$$$".toList = "123$".toList := by
    simp [expandSpec]
  refine ⟨hspec, ?_, hspec2, by decide⟩
  have h := replace_string_refines_expandSpec "a$$b".toList "$$".toList "123".toList
    (by rw [hspec]; decide)
  rw [hspec] at h
  exact h

/-- The first token of a line is stored as it is: on every line with first token `t0`
whose parse completes, `argv[0] = t0`. -/
theorem program_name_copied (line pid t0 : CStr) (slots : Nat) (bg fg : Int)
    (rin rout : Option CStr) (cmd : ParsedCommand) (h0 : (tokens line).head? = some t0)
    (h : tokenize_and_store line slots bg rin rout pid fg = .ok cmd) :
    cmd.parsedArgs.head? = some t0 := by
  obtain ⟨t1, saved, hs, hslots⟩ := tokenize_and_store_ok line pid slots bg fg rin rout cmd h
  rw [tokenize_and_store_first line t1 saved pid slots bg fg rin rout hs hslots] at h
  rw [tokens_of_strtok_some line saved t1 hs] at h0
  simp only [List.head?_cons, Option.some.injEq] at h0
  obtain ⟨extra, hextra⟩ := tokenize_loop_args slots pid fg (line.length + 1) saved _ cmd h
  rw [hextra, ← h0]
  rfl

/-- A completed parse stored at most as many arguments as the caller's array has
slots. -/
theorem tokenize_and_store_within_slots (line pid : CStr) (slots : Nat) (bg fg : Int)
    (rin rout : Option CStr) (cmd : ParsedCommand)
    (h : tokenize_and_store line slots bg rin rout pid fg = .ok cmd) :
    cmd.parsedArgs.length ≤ slots := by
  obtain ⟨t1, saved, hs, hslots⟩ := tokenize_and_store_ok line pid slots bg fg rin rout cmd h
  rw [tokenize_and_store_first line t1 saved pid slots bg fg rin rout hs hslots] at h
  exact tokenize_loop_within_slots slots pid fg (line.length + 1) saved _ cmd
    (by simpa using hslots) h

/-! ## The claims -/

/-- C1: `replace_string` does not return the specified expansion of every source.
The line `echo $$...$` with 2000 dollar signs has 2006 characters and is accepted; its
second token has 1000 markers, and with the replacement `12345` the specified
expansion has 5000 characters, which `replace_string` does not return: it stores
outside its 2048-byte allocation. -/
theorem long_dollar_token_not_expanded :
    long_dollar_line.length = 2006 ∧
    read_user_input [] 2048 long_dollar_line = .ok (long_dollar_line, []) ∧
    tokens long_dollar_line = ["echo".toList, long_dollar_token] ∧
    (expandSpec pid_marker "12345".toList long_dollar_token).length = 5000 ∧
    replace_string (some long_dollar_token) pid_marker "12345".toList
      = .error .bufferOverflow ∧
    replace_string (some long_dollar_token) pid_marker "12345".toList
      ≠ .ok (expandSpec pid_marker "12345".toList long_dollar_token) := by
  have hov : replace_string (some long_dollar_token) pid_marker "12345".toList
      = .error .bufferOverflow :=
    dollars_overflow 1000 "12345".toList (by decide)
  refine ⟨echo_line_length 2000, echo_line_accepted 2000 (by decide),
    echo_line_tokens 2000 (by decide), expandSpec_dollars_length "12345".toList 1000, hov, ?_⟩
  rw [hov]
  exact fun h => Except.noConfusion h

/-- C10: the expansion does not always fit.  The line `echo $$...$` with 820 dollar
signs has 826 characters; its second token has 410 markers, and with the PID text
`12345` its expansion needs 2050 characters, so `replace_string` stores outside its
2048 bytes and the parse of the line faults there. -/
theorem dollar_line_overflows :
    dollar_line.length = 826 ∧
    tokens dollar_line = ["echo".toList, dollar_token] ∧
    (expandSpec pid_marker "12345".toList dollar_token).length = 2050 ∧
    replace_string (some dollar_token) pid_marker "12345".toList = .error .bufferOverflow ∧
    tokenize_and_store dollar_line main_input_slots 0 none none "12345".toList 0
      = .error .bufferOverflow ∧
    read_user_input [] 2048 dollar_line = .ok (dollar_line, []) ∧
    get_the_input main_input_slots [] dollar_line 12345 0 = .error .bufferOverflow := by
  have hparse : tokenize_and_store dollar_line main_input_slots 0 none none "12345".toList 0
      = .error .bufferOverflow :=
    echo_line_parse_overflows 410 "12345".toList main_input_slots 0 (by decide) (by decide)
  have hread : read_user_input [] 2048 dollar_line = .ok (dollar_line, []) :=
    echo_line_accepted 820 (by decide)
  exact ⟨echo_line_length 820, echo_line_tokens 820 (by decide),
    expandSpec_dollars_length "12345".toList 410,
    dollars_overflow 410 "12345".toList (by decide), hparse, hread,
    get_the_input_fault main_input_slots [] dollar_line [] 12345 0 "12345".toList
      .bufferOverflow (by decide) hread hparse⟩

/-- C2: the special tokens are appended to `parsedArgs`.  `parse_special_symbols`
never clears `*currentToken`, so the test at line 313 always passes: `ls -l &` gives
`ls`, `-l`, `&` and `cat < in > out` gives `cat`, `<`, `>`. -/
theorem special_tokens_reach_argv :
    tokenize_and_store "ls -l &\n".toList main_input_slots 0 none none "123".toList 0
      = .ok { parsedArgs := ["ls".toList, "-l".toList, "&".toList],
              isBackgroundProcess := 1,
              redirectInputName := none, redirectOutputName := none } ∧
    tokenize_and_store "cat < in > out\n".toList main_input_slots 0 none none "123".toList 0
      = .ok { parsedArgs := ["cat".toList, "<".toList, ">".toList],
              isBackgroundProcess := 0,
              redirectInputName := some "in".toList,
              redirectOutputName := some "out".toList } := by
  constructor <;> decide

/-- C3 (amended): on every input line whose parse completes, whatever the size of the
argument array, the background flag is `not foreground_only`, with the flag's value at
parse time, when some token after the program name that is not taken as a redirect
target is `&`, and false otherwise. -/
theorem background_flag_of_parse (line pid : CStr) (slots : Nat) (fg : Int)
    (cmd : ParsedCommand)
    (h : tokenize_and_store line slots 0 none none pid fg = .ok cmd) :
    cmd.isBackgroundProcess =
      if ['&'] ∈ loop_tokens (tokens line).tail then (if fg = 0 then 1 else 0) else 0 := by
  obtain ⟨t0, saved, hs, hslots⟩ :=
    tokenize_and_store_ok line pid slots 0 fg none none cmd h
  rw [tokenize_and_store_first line t0 saved pid slots 0 fg none none hs hslots] at h
  have hlen := strtok_length delimiters line saved t0 hs
  rw [tokens_of_strtok_some line saved t0 hs, List.tail_cons]
  exact tokenize_loop_background slots pid fg (line.length + 1) saved _ cmd (by omega) h

/-- C3, witness: the three parses the claim names, with the 512 slots of `main`. -/
theorem background_flag_of_parse_witness :
    tokenize_and_store "ls -l\n".toList main_input_slots 0 none none "123".toList 0
      = .ok { parsedArgs := ["ls".toList, "-l".toList], isBackgroundProcess := 0,
              redirectInputName := none, redirectOutputName := none } ∧
    tokenize_and_store "ls -l &\n".toList main_input_slots 0 none none "123".toList 0
      = .ok { parsedArgs := ["ls".toList, "-l".toList, "&".toList], isBackgroundProcess := 1,
              redirectInputName := none, redirectOutputName := none } ∧
    (tokenize_and_store "ls -l &\n".toList main_input_slots 0 none none "123".toList 1).map
      (fun c => c.isBackgroundProcess) = .ok 0 ∧
    (1 : Int) =
      if ['&'] ∈ loop_tokens (tokens "ls -l &\n".toList).tail
      then (if (0 : Int) = 0 then 1 else 0) else 0 :=
  ⟨by decide, by decide, by decide,
    background_flag_of_parse "ls -l &\n".toList "123".toList main_input_slots 0
      { parsedArgs := ["ls".toList, "-l".toList, "&".toList], isBackgroundProcess := 1,
        redirectInputName := none, redirectOutputName := none } (by decide)⟩

/-- C3, counterexample: the line `cat < &` has the token `&` after the program name,
foreground-only mode is off, and the parse leaves the background flag 0: the `&` was
taken as the input path. -/
theorem background_flag_counterexample :
    ['&'] ∈ (tokens "cat < &\n".toList).tail ∧
    tokenize_and_store "cat < &\n".toList main_input_slots 0 none none "123".toList 0
      = .ok { parsedArgs := ["cat".toList, "<".toList], isBackgroundProcess := 0,
              redirectInputName := some "&".toList, redirectOutputName := none } := by
  constructor <;> decide

/-- C4: the program name is not expanded.  On `prog$$ x` with PID text `123` the parse
stores `strdup` of the first token, so `argv[0]` is `prog$$`, while `replace_string`
on that token gives `prog123`; the later tokens go through `replace_string`, as
`prog$$ arg$$` shows. -/
theorem program_name_not_expanded :
    tokenize_and_store "prog$$ x\n".toList main_input_slots 0 none none "123".toList 0
      = .ok { parsedArgs := ["prog$$".toList, "x".toList], isBackgroundProcess := 0,
              redirectInputName := none, redirectOutputName := none } ∧
    replace_string (some "prog$$".toList) pid_marker "123".toList = .ok "prog123".toList ∧
    "prog$$".toList ≠ "prog123".toList ∧
    tokenize_and_store "prog$$ arg$$\n".toList main_input_slots 0 none none "123".toList 0
      = .ok { parsedArgs := ["prog$$".toList, "arg123".toList], isBackgroundProcess := 0,
              redirectInputName := none, redirectOutputName := none } := by
  refine ⟨by decide, by decide, by decide, by decide⟩

/-- C5: a trailing `<` or `>` faults the parse.  `strtok` returns `NULL` for the
missing target and `parse_special_symbols` passes it to `replace_string`, which reads
`sourceStr[0]` through it. -/
theorem trailing_redirect_faults :
    (tokens "cat <\n".toList).getLast? = some "<".toList ∧
    tokenize_and_store "cat <\n".toList main_input_slots 0 none none "123".toList 0
      = .error .nullDeref ∧
    (tokens "cat >\n".toList).getLast? = some ">".toList ∧
    tokenize_and_store "cat >\n".toList main_input_slots 0 none none "123".toList 0
      = .error .nullDeref ∧
    replace_string none pid_marker "123".toList = .error .nullDeref := by
  refine ⟨by decide, by decide, by decide, by decide, by decide⟩

/-- C6: a line of blanks is accepted by `read_user_input` and has no token: `strtok`
returns `NULL` and `strdup` reads through it, so no `argv[0]` is produced. -/
theorem blank_line_has_no_program_name :
    read_user_input [] 2048 "  \t\n".toList = .ok ("  \t\n".toList, []) ∧
    tokens "  \t\n".toList = [] ∧
    tokenize_and_store "  \t\n".toList main_input_slots 0 none none "123".toList 0
      = .error .nullDeref ∧
    get_the_input main_input_slots [] "  \t\n".toList 123 0 = .error .nullDeref := by
  refine ⟨by decide, by decide, by decide, by decide⟩

/-- C7 (amended): if a parse yields a set background flag, whatever the size of the
argument array, then foreground-only mode was off at parse time and some token after
the program name that was not taken as a redirect target is `&`. -/
theorem background_only_if_amp (line pid : CStr) (slots : Nat) (fg : Int)
    (cmd : ParsedCommand)
    (h : tokenize_and_store line slots 0 none none pid fg = .ok cmd)
    (hbg : cmd.isBackgroundProcess ≠ 0) :
    fg = 0 ∧ ['&'] ∈ loop_tokens (tokens line).tail := by
  obtain ⟨t0, saved, hs, hslots⟩ :=
    tokenize_and_store_ok line pid slots 0 fg none none cmd h
  rw [tokenize_and_store_first line t0 saved pid slots 0 fg none none hs hslots] at h
  have hlen := strtok_length delimiters line saved t0 hs
  have hval := tokenize_loop_background slots pid fg (line.length + 1) saved _ cmd
    (by omega) h
  rw [tokens_of_strtok_some line saved t0 hs, List.tail_cons]
  by_cases hamp : ['&'] ∈ loop_tokens (tokens saved)
  · rw [if_pos hamp] at hval
    by_cases hfg : fg = 0
    · exact ⟨hfg, hamp⟩
    · rw [if_neg hfg] at hval
      exact absurd hval hbg
  · rw [if_neg hamp] at hval
    exact absurd hval hbg

/-- C7, witness: `sleep 5 &` with foreground-only mode off and the 512 slots of
`main`. -/
theorem background_only_if_amp_witness :
    tokenize_and_store "sleep 5 &\n".toList main_input_slots 0 none none "123".toList 0
      = .ok { parsedArgs := ["sleep".toList, "5".toList, "&".toList], isBackgroundProcess := 1,
              redirectInputName := none, redirectOutputName := none } ∧
    ((0 : Int) = 0 ∧ ['&'] ∈ loop_tokens (tokens "sleep 5 &\n".toList).tail) :=
  ⟨by decide,
    background_only_if_amp "sleep 5 &\n".toList "123".toList main_input_slots 0
      { parsedArgs := ["sleep".toList, "5".toList, "&".toList], isBackgroundProcess := 1,
        redirectInputName := none, redirectOutputName := none } (by decide) (by decide)⟩

/-- C7, counterexample: `sleep & 5` with foreground-only mode off parses with the
background flag set although the last token of the line is `5`. -/
theorem background_not_last_counterexample :
    (tokenize_and_store "sleep & 5\n".toList main_input_slots 0 none none "123".toList 0).map
      (fun c => c.isBackgroundProcess) = .ok 1 ∧
    (tokens "sleep & 5\n".toList).getLast? = some "5".toList ∧
    "5".toList ≠ "&".toList := by
  refine ⟨by decide, by decide, by decide⟩

theorem reachable_zero_or_one (m : Int) (h : Reachable m) : m = 0 ∨ m = 1 := by
  induction h with
  | init => exact Or.inl rfl
  | step _ ih =>
    rcases ih with rfl | rfl
    · right; rfl
    · left; rfl

/-- C8: for every reachable value of `foreground_mode`, two runs of
`parent_signal_handler` restore it; one run flips the flag and writes exactly one
notice, the entering one when the flag goes from off to on, the exiting one when it
goes from on to off. -/
theorem parent_signal_handler_toggle (m : Int) (h : Reachable m) :
    (parent_signal_handler (parent_signal_handler m).1).1 = m ∧
    ((parent_signal_handler m).1 = 0 ↔ m ≠ 0) ∧
    (m = 0 → parent_signal_handler m = (1, [enterMsg])) ∧
    (m ≠ 0 → parent_signal_handler m = (0, [exitMsg])) ∧
    enterMsg ≠ exitMsg := by
  rcases reachable_zero_or_one m h with rfl | rfl
  · refine ⟨by decide, by decide, fun _ => rfl, fun h0 => absurd rfl h0, by decide⟩
  · refine ⟨by decide, by decide, fun h1 => absurd h1 (by decide), fun _ => rfl, by decide⟩

/-- C8, witness: the value 1, reached by one toggle from the initial 0. -/
theorem parent_signal_handler_toggle_witness :
    (parent_signal_handler (parent_signal_handler 1).1).1 = 1 ∧
    parent_signal_handler 1 = (0, [exitMsg]) :=
  ⟨(parent_signal_handler_toggle 1 (Reachable.step Reachable.init)).1,
    (parent_signal_handler_toggle 1 (Reachable.step Reachable.init)).2.2.2.1 (by decide)⟩

theorem redirect_one_open_failure {σ : Type} (os : OS σ) (s : σ) (path : CStr)
    (flags : OpenFlags) (target : Int) (openError dupError : String)
    (h : (os.open_ s path flags).1 = -1) :
    redirect_one os s (some path) flags target openError dupError
      = .exits 1 [.open_ path flags (-1), .perror openError, .exit 1] := by
  simp [redirect_one, h]

theorem redirect_one_dup_failure {σ : Type} (os : OS σ) (s : σ) (path : CStr)
    (flags : OpenFlags) (target : Int) (openError dupError : String)
    (h : (os.open_ s path flags).1 ≠ -1)
    (hd : (os.dup2 (os.open_ s path flags).2 (os.open_ s path flags).1 target).1 = -1) :
    redirect_one os s (some path) flags target openError dupError
      = .exits 2 [.open_ path flags (os.open_ s path flags).1,
          .dup2 (os.open_ s path flags).1 target (-1), .perror dupError, .exit 2] := by
  simp [redirect_one, h, hd]

/-- C9: when the resolved input path cannot be opened, the child, in either role, ends
inside `configureIOredirection` with exit code 1 after reporting the open error, and
never calls `execvp`; when the path opens and the duplication onto standard input
fails, it ends there with the different code 2, again without `execvp`. -/
theorem input_open_failure_stops_child {σ : Type} (os : OS σ) (s : σ)
    (commandArgs : List CStr) (stdinRedirect stdoutRedirect : Option CStr)
    (isBackgroundProcess : Int) (path : CStr)
    (hpath : resolve_redirect stdinRedirect isBackgroundProcess = some path) :
    ((os.open_ s path .O_RDONLY).1 = -1 →
      (run_child_process os s commandArgs stdinRedirect stdoutRedirect
          isBackgroundProcess).ending = .exited 1 ∧
      (∀ e ∈ (run_child_process os s commandArgs stdinRedirect stdoutRedirect
          isBackgroundProcess).trace, e.is_execvp = false) ∧
      (run_child_process os s commandArgs stdinRedirect stdoutRedirect
          isBackgroundProcess).trace.drop 2
        = [.open_ path .O_RDONLY (-1), .perror "Error opening input file", .exit 1]) ∧
    ((os.open_ s path .O_RDONLY).1 ≠ -1 →
      (os.dup2 (os.open_ s path .O_RDONLY).2 (os.open_ s path .O_RDONLY).1 0).1 = -1 →
      (run_child_process os s commandArgs stdinRedirect stdoutRedirect
          isBackgroundProcess).ending = .exited 2 ∧
      (∀ e ∈ (run_child_process os s commandArgs stdinRedirect stdoutRedirect
          isBackgroundProcess).trace, e.is_execvp = false)) ∧
    (1 : Int) ≠ 2 := by
  refine ⟨?_, ?_, by decide⟩
  · intro hopen
    have hcfg := redirect_one_open_failure os s path .O_RDONLY 0 "Error opening input file"
      "Error duplicating input file descriptor" hopen
    unfold run_child_process configureIOredirection
    rw [hpath, hcfg]
    by_cases hb : isBackgroundProcess = 1 <;> simp [hb, Event.is_execvp]
  · intro hopen hdup
    have hcfg := redirect_one_dup_failure os s path .O_RDONLY 0 "Error opening input file"
      "Error duplicating input file descriptor" hopen hdup
    unfold run_child_process configureIOredirection
    rw [hpath, hcfg]
    by_cases hb : isBackgroundProcess = 1 <;> simp [hb, Event.is_execvp]

/-- C9, witness: a foreground `cat < nofile` and a background `cat` on a system where
no file opens: both end with code 1 and no `execvp`. -/
theorem input_open_failure_stops_child_witness :
    resolve_redirect (some "nofile".toList) 0 = some "nofile".toList ∧
    (os_no_files.open_ () "nofile".toList .O_RDONLY).1 = -1 ∧
    run_child_process os_no_files () ["cat".toList] (some "nofile".toList) none 0
      = { trace := [.signal .SIGTSTP .SIG_IGN, .signal .SIGINT .child_signal_handler,
                    .open_ "nofile".toList .O_RDONLY (-1),
                    .perror "Error opening input file", .exit 1],
          ending := .exited 1 } ∧
    (run_child_process os_no_files () ["cat".toList] (some "nofile".toList) none 0).ending
      = .exited 1 ∧
    (run_child_process os_no_files () ["cat".toList] none none 1).ending = .exited 1 :=
  ⟨by decide, by decide, by decide,
    ((input_open_failure_stops_child os_no_files () ["cat".toList] (some "nofile".toList) none 0
      "nofile".toList (by decide)).1 (by decide)).1,
    ((input_open_failure_stops_child os_no_files () ["cat".toList] none none 1
      dev_null (by decide)).1 (by decide)).1⟩

end Smallshell
